import Mathlib

/-!
Shallow embedding of the `weather-insights` repository's time-series core
(`src/preprocess.py`, `src/modeling/baselines.py`, `src/modeling/backtest.py`).

A pandas `Series` of floats is modelled as `List (Option ℚ)`: list position
`i` is the `i`-th row of the (date-sorted) series, `none` is `NaN`. The daily
date index is modelled by integers (day numbers); after calendar
normalization the index is `lo, lo+1, ..., hi`, so position `i` holds date
`lo + i` and positional shifts coincide with day shifts.
-/

set_option maxRecDepth 4000

namespace WeatherInsights

/-- A cell of a numeric pandas column: `none` is `NaN`. -/
abbrev Val := Option ℚ

/-- Value of the series at row `i` (`NaN` out of range), i.e. `s.iloc[i]`. -/
def colAt (s : List Val) (i : ℕ) : Val := s.getD i none

/-- `pandas.Series.shift(k)`: row `i` of the result is row `i - k` of the
input when `k ≤ i`, `NaN` otherwise; the length is unchanged. -/
def shift (k : ℕ) (s : List Val) : List Val :=
  (List.range s.length).map (fun i => if k ≤ i then colAt s (i - k) else none)

/-- `baselines.naive` from `src/modeling/baselines.py`: `y.shift(1)`. -/
def naive (y : List Val) : List Val := shift 1 y

/-- `pandas.Series.fillna(other)` for two aligned series: each `NaN` cell of
`a` is replaced by the corresponding cell of `b`. -/
def fillna (a b : List Val) : List Val :=
  a.zipWith (fun x y => match x with | some v => some v | none => y) b

/-- `baselines.seasonal_naive` from `src/modeling/baselines.py`:
`y.shift(period).fillna(y.shift(1))`. -/
def seasonal_naive (y : List Val) (period : ℕ) : List Val :=
  fillna (shift period y) (shift 1 y)

/-- The cell the spec prescribes for seasonal persistence (a spec-side
definition, written from the spec's words, to be compared with
`seasonal_naive`): the value one period earlier when that seasonal lag is
available, otherwise the 1-day persistence value (which does not exist at
row 0). -/
def seasonalSpecCell (s : List Val) (p i : ℕ) : Val :=
  if p ≤ i then
    match colAt s (i - p) with
    | some v => some v
    | none => if 1 ≤ i then colAt s (i - 1) else none
  else if 1 ≤ i then colAt s (i - 1) else none

/-- Arithmetic mean of a list of rationals (`0` on the empty list). -/
def meanQ (xs : List ℚ) : ℚ := xs.sum / xs.length

/-- Sample variance (`ddof = 1`, pandas' rolling-`std` default, squared). -/
def varQ (xs : List ℚ) : ℚ :=
  ((xs.map (fun x => (x - meanQ xs) ^ 2)).sum) / ((xs.length : ℚ) - 1)

/-- The trailing window of width `w` ending at row `i` (rows `i-w+1 .. i`),
meaningful when `w ≤ i + 1`. -/
def window (w : ℕ) (s : List Val) (i : ℕ) : List Val :=
  (List.range w).map (fun t => colAt s (i + 1 - w + t))

/-- `pandas.Series.rolling(w)` followed by an aggregate `f`: with the default
`min_periods = w`, row `i` is `NaN` unless the trailing window of width `w`
exists (`w ≤ i + 1`) and contains no `NaN`; otherwise it is `f` of the window
values. -/
def rollApply (w : ℕ) (f : List ℚ → ℚ) (s : List Val) : List Val :=
  (List.range s.length).map (fun i =>
    if w ≤ i + 1 then
      let win := window w s i
      if win.all Option.isSome then some (f (win.map (fun o => o.getD 0)))
      else none
    else none)

/-- The lag/rolling columns appended by `preprocess.add_lags_rolls`
(`src/preprocess.py`).  `roll_std_7` in the code is
`sqrt`-of-`rollVarS7` pointwise; since `sqrt` is applied cell-wise to the
(nonnegative) variance, the variance column has the same `NaN` cells and the
same dependence on the input, so it stands in for the std column. -/
structure FeatureCols where
  lag1 : List Val
  lag7 : List Val
  lag14 : List Val
  rollMean7 : List Val
  rollVarS7 : List Val
  rollMean30 : List Val
deriving Repr, DecidableEq

/-- `preprocess.add_lags_rolls(df, "tavg")`: lags 1, 7, 14 and trailing
rolling mean/std over 7 days, mean over 30 days of the target column. -/
def add_lags_rolls (s : List Val) : FeatureCols :=
  { lag1 := shift 1 s
    lag7 := shift 7 s
    lag14 := shift 14 s
    rollMean7 := rollApply 7 meanQ s
    rollVarS7 := rollApply 7 varQ s
    rollMean30 := rollApply 30 meanQ s }

/-- The split marker of `preprocess.main` (`src/preprocess.py` line 53):
`is_test(d) = (d >= max_date - 364 days)`, dates as integer day numbers. -/
def isTest (d maxDate : ℤ) : Bool := maxDate - 364 ≤ d

/-- The daily date index of a normalized series spanning `n` consecutive
days starting at day `lo`. -/
def dateIndex (lo : ℤ) (n : ℕ) : List ℤ := (List.range n).map (fun t : ℕ => lo + (t : ℤ))

/-- `backtest.evaluate` (`src/modeling/backtest.py`): sklearn's
`mean_absolute_error` / `mean_squared_error` on the aligned pair of series.
sklearn validates its inputs: a `NaN` in either series, a length mismatch, or
empty input raises `ValueError` — modelled as `Except.error`.  On success the
result is `(MAE, MSE)`; the code reports `RMSE = sqrt(MSE)`. -/
def evaluate (yTrue yPred : List Val) : Except String (ℚ × ℚ) :=
  if yTrue.length ≠ yPred.length then .error "Found input variables with inconsistent numbers of samples"
  else if yTrue.length = 0 then .error "Found array with 0 sample(s)"
  else if (yTrue.all Option.isSome ∧ yPred.all Option.isSome) then
    let pairs := yTrue.zip yPred
    let diffs := pairs.map (fun p => p.1.getD 0 - p.2.getD 0)
    .ok ((diffs.map (fun d => |d|)).sum / diffs.length,
         (diffs.map (fun d => d ^ 2)).sum / diffs.length)
  else .error "Input contains NaN"

/-- Largest `j ≤ i` whose cell is non-`NaN` (the previous valid observation
pandas interpolation extends forward from). -/
def prevValid (s : List Val) : ℕ → Option ℕ
  | 0 => if (colAt s 0).isSome then some 0 else none
  | i + 1 => if (colAt s (i + 1)).isSome then some (i + 1) else prevValid s i

/-- Upward search for the next non-`NaN` cell, bounded by `fuel`. -/
def nextValidAux (s : List Val) : ℕ → ℕ → Option ℕ
  | 0, _ => none
  | fuel + 1, i => if (colAt s i).isSome then some i else nextValidAux s fuel (i + 1)

/-- Smallest `j ≥ i` (within the list) whose cell is non-`NaN`. -/
def nextValid (s : List Val) (i : ℕ) : Option ℕ :=
  nextValidAux s (s.length - i) i

/-- Linear interpolation between the points `(j, vj)` and `(k, vk)`,
evaluated at position `i`. -/
def interpQ (j : ℕ) (vj : ℚ) (k : ℕ) (vk : ℚ) (i : ℕ) : ℚ :=
  vj + (vk - vj) * (((i : ℚ) - (j : ℚ)) / ((k : ℚ) - (j : ℚ)))

/-- `pandas.Series.interpolate(limit=lim)` (`method="linear"`, default
`limit_direction="forward"`) on an equally spaced index: a non-`NaN` cell is
kept; a `NaN` cell at `i` is filled iff a previous valid cell `j` exists and
at most `lim` consecutive `NaN`s separate `i` from `j` (`i - j ≤ lim`); the
filled value is the linear interpolation between the flanking valid cells,
or the previous valid value when no later valid cell exists (pandas clips at
the last observation); leading `NaN`s are never filled. -/
def interpolateLimit (lim : ℕ) (s : List Val) : List Val :=
  (List.range s.length).map (fun i =>
    match colAt s i with
    | some v => some v
    | none =>
      match prevValid s i with
      | none => none
      | some j =>
        if i - j ≤ lim then
          some (match nextValid s i with
            | some k => interpQ j ((colAt s j).getD 0) k ((colAt s k).getD 0) i
            | none => (colAt s j).getD 0)
        else none)

/-- The calendar-normalization step of `preprocess.main` for one numeric
column, on observations as (day-number, value) pairs: build the daily index
from min to max date (`pd.date_range` raises on an empty frame, whose
min/max are `NaT` — modelled as `Except.error`), reindex onto it (missing
dates become `NaN`), then `interpolate(limit=3)`. -/
def normalizeCol (obs : List (ℤ × Val)) : Except String (List (ℤ × Val)) :=
  match obs with
  | [] => .error "Neither start nor end can be NaT"
  | o :: rest =>
    let lo := rest.foldl (fun m p => min m p.1) o.1
    let hi := rest.foldl (fun m p => max m p.1) o.1
    let n := (hi - lo + 1).toNat
    let grid := dateIndex lo n
    let vals := grid.map (fun d => ((o :: rest).lookup d).join)
    .ok (grid.zip (interpolateLimit 3 vals))

/- ———————————————————————— theorems ———————————————————————— -/

theorem colAt_eq_join (s : List Val) (i : ℕ) : colAt s i = s[i]?.join := by
  rcases h : s[i]? with _ | v
  · simp [colAt, List.getD_eq_getElem?_getD, h]
  · simp [colAt, List.getD_eq_getElem?_getD, h]

theorem shift_length (k : ℕ) (s : List Val) : (shift k s).length = s.length := by
  simp [shift]

theorem shift_getElem? (k : ℕ) (s : List Val) (i : ℕ) :
    (shift k s)[i]? =
      if i < s.length then some (if k ≤ i then colAt s (i - k) else none)
      else none := by
  by_cases h : i < s.length
  · simp [shift, List.getElem?_map, List.getElem?_range, h]
  · simp [shift, List.getElem?_map, List.getElem?_range, h, Nat.le_of_not_lt h]

theorem fillna_getElem? (a b : List Val) (i : ℕ) :
    (fillna a b)[i]? =
      match a[i]?, b[i]? with
      | some (some v), some _ => some (some v)
      | some none, some y => some y
      | _, _ => none := by
  rcases ha : a[i]? with _ | x <;> rcases hb : b[i]? with _ | y
  · simp [fillna, List.getElem?_zipWith, ha, hb]
  · simp [fillna, List.getElem?_zipWith, ha, hb]
  · simp [fillna, List.getElem?_zipWith, ha, hb]
  · rcases x with _ | v <;> simp [fillna, List.getElem?_zipWith, ha, hb]

theorem colAt_isSome_of_all (s : List Val) (hs : s.all Option.isSome = true)
    (i : ℕ) (hi : i < s.length) : ∃ v : ℚ, colAt s i = some v := by
  rw [colAt_eq_join]
  rw [List.all_eq_true] at hs
  have hmem : s[i] ∈ s := List.getElem_mem hi
  have := hs _ hmem
  rcases hv : s[i] with _ | v
  · rw [hv] at this; simp at this
  · exact ⟨v, by simp [List.getElem?_eq_getElem hi, hv]⟩

/-- Pointwise characterization of `seasonal_naive` (shared helper): row `i`
is the seasonal lag when available, else the 1-day persistence value. -/
theorem seasonal_naive_getElem? (s : List Val) (p i : ℕ) (hi : i < s.length) :
    (seasonal_naive s p)[i]? = some (seasonalSpecCell s p i) := by
  have h1 := shift_getElem? p s i
  have h2 := shift_getElem? 1 s i
  rw [if_pos hi] at h1 h2
  rw [seasonal_naive, fillna_getElem?, h1, h2, seasonalSpecCell]
  by_cases hp : p ≤ i
  · rcases hc : colAt s (i - p) with _ | v <;> simp [hp, hc]
  · simp [hp]

/-- C8: for every input series `s`, the persistence (naive) forecast is null
at position 0 and equals `s[i-1]` at every position `i ≥ 1` (rows beyond the
series length do not exist). -/
theorem persistence_null_at_zero_and_shifts (s : List Val) (i : ℕ) :
    (naive s)[i]? =
      if i < s.length then some (if 1 ≤ i then colAt s (i - 1) else none)
      else none :=
  shift_getElem? 1 s i

/-- C6: seasonal persistence with fallback: at every row the forecast is the
seasonal lag `s[i-p]` when available and the 1-day persistence value
otherwise (`seasonalSpecCell`); in particular, on a series of non-null
values of length `> p` the forecast at position `p` is `s[0]` and the
forecast at position `p+1` is non-null. -/
theorem seasonal_persistence_fallback_spec (s : List Val) (p : ℕ) :
    (∀ i, i < s.length → (seasonal_naive s p)[i]? = some (seasonalSpecCell s p i)) ∧
    (s.all Option.isSome = true → p < s.length →
      (seasonal_naive s p)[p]? = some (colAt s 0)) ∧
    (s.all Option.isSome = true → p + 1 < s.length →
      ∃ v : ℚ, (seasonal_naive s p)[p + 1]? = some (some v)) := by
  refine ⟨fun i hi => seasonal_naive_getElem? s p i hi, ?_, ?_⟩
  · intro hall hp
    rw [seasonal_naive_getElem? s p p hp]
    obtain ⟨v, hv⟩ := colAt_isSome_of_all s hall 0 (Nat.zero_lt_of_lt hp)
    simp [seasonalSpecCell, Nat.sub_self, hv]
  · intro hall hp1
    have h1 : 1 < s.length := Nat.lt_of_le_of_lt (Nat.le_add_left 1 p) hp1
    obtain ⟨v, hv⟩ := colAt_isSome_of_all s hall 1 h1
    refine ⟨v, ?_⟩
    rw [seasonal_naive_getElem? s p (p + 1) hp1]
    have : p + 1 - p = 1 := by omega
    simp [seasonalSpecCell, Nat.le_succ_of_le (Nat.le_refl p), this, hv]

/-- C6 witness: on `s = [5, 6, 7, 8]` with period 2, the forecast at
position 2 is `s[0] = 5` and the forecast at position 3 is non-null. -/
theorem seasonal_persistence_fallback_spec_witness :
    (seasonal_naive [some 5, some 6, some 7, some 8] 2)[2]? = some (some 5) ∧
    ∃ v : ℚ, (seasonal_naive [some 5, some 6, some 7, some 8] 2)[3]? = some (some v) :=
  ⟨by
    have h := (seasonal_persistence_fallback_spec [some 5, some 6, some 7, some 8] 2).2.1
      (by decide) (by decide)
    simpa [colAt] using h,
   (seasonal_persistence_fallback_spec [some 5, some 6, some 7, some 8] 2).2.2
      (by decide) (by decide)⟩

/-- C10: the fallback to the 1-day-prior value applies at every position
whose seasonal-lag value is null — including interior positions where the
value one period earlier exists in the index but is itself null — and the
forecast at position 0 is always null (for a positive period). -/
theorem seasonal_fallback_scope (s : List Val) (p : ℕ) (hp : 1 ≤ p) :
    (∀ i, i < s.length → p ≤ i → colAt s (i - p) = none →
      (seasonal_naive s p)[i]? = some (colAt s (i - 1))) ∧
    (0 < s.length → (seasonal_naive s p)[0]? = some none) := by
  constructor
  · intro i hi hpi hnull
    rw [seasonal_naive_getElem? s p i hi]
    have h1 : 1 ≤ i := Nat.le_trans hp hpi
    simp [seasonalSpecCell, hpi, hnull, h1]
  · intro h0
    rw [seasonal_naive_getElem? s p 0 h0]
    have : ¬ p ≤ 0 := by omega
    simp [seasonalSpecCell, this]

/-- C10 witness: on `s = [1, 2, NaN, 4, 5]` with period 2, position 4's
seasonal lag (`s[2]`) is null inside the series, and the forecast falls back
to `s[3] = 4`; the forecast at position 0 is null. -/
theorem seasonal_fallback_scope_witness :
    (seasonal_naive [some 1, some 2, none, some 4, some 5] 2)[4]? = some (some 4) ∧
    (seasonal_naive [some 1, some 2, none, some 4, some 5] 2)[0]? = some none :=
  ⟨by
    have h := (seasonal_fallback_scope [some 1, some 2, none, some 4, some 5] 2
      (by decide)).1 4 (by decide) (by decide) (by decide)
    simpa [colAt] using h,
   (seasonal_fallback_scope [some 1, some 2, none, some 4, some 5] 2 (by decide)).2
      (by decide)⟩

/-- C3 (code bug): the spec requires the evaluator to skip pairs where either
side is null, but `backtest.evaluate` calls sklearn metrics directly, which
raise `ValueError` on any `NaN` input; on the fully non-null example
`actual = [1,2,3]`, `predicted = [1,3,2]` it does return `MAE = 2/3` and
`MSE = 2/3` (so `RMSE = sqrt(2/3)`). -/
theorem evaluate_nan_crash_and_example :
    evaluate [some 1, some 2] [none, some 2] = .error "Input contains NaN" ∧
    evaluate [some 1, some 2, some 3] [some 1, some 3, some 2] = .ok (2/3, 2/3) := by
  constructor
  · rfl
  · simp only [evaluate]
    norm_num

/-- C5: the split marker holds iff the date is at least the max date minus
364 days; over a 400-day consecutive span (max date `lo + 399`) exactly 365
dates are test and 35 are train; over a span of `n ≤ 365` consecutive days
every date is test. -/
theorem split_policy_spec :
    (∀ d maxDate : ℤ, isTest d maxDate = true ↔ maxDate - 364 ≤ d) ∧
    (∀ lo : ℤ,
      (dateIndex lo 400).countP (fun d => isTest d (lo + 399)) = 365 ∧
      (dateIndex lo 400).countP (fun d => ! isTest d (lo + 399)) = 35) ∧
    (∀ (lo : ℤ) (n : ℕ), n ≤ 365 →
      ∀ d ∈ dateIndex lo n, isTest d (lo + n - 1) = true) := by
  refine ⟨fun d maxDate => by simp [isTest], fun lo => ⟨?_, ?_⟩, ?_⟩
  · rw [dateIndex, List.countP_map]
    have hcongr : ∀ t ∈ List.range 400,
        ((fun d => isTest d (lo + 399)) ∘ (fun t : ℕ => lo + (t : ℤ))) t = true ↔
          (fun t : ℕ => decide (35 ≤ t)) t = true := by
      intro t ht
      simp only [Function.comp, isTest]
      constructor <;> { intro h; simp_all; omega }
    rw [List.countP_congr hcongr]
    decide
  · rw [dateIndex, List.countP_map]
    have hcongr : ∀ t ∈ List.range 400,
        ((fun d => ! isTest d (lo + 399)) ∘ (fun t : ℕ => lo + (t : ℤ))) t = true ↔
          (fun t : ℕ => decide (t < 35)) t = true := by
      intro t ht
      simp only [Function.comp, isTest]
      constructor <;> { intro h; simp_all; omega }
    rw [List.countP_congr hcongr]
    decide
  · intro lo n hn d hd
    rw [dateIndex, List.mem_map] at hd
    obtain ⟨t, ht, rfl⟩ := hd
    rw [List.mem_range] at ht
    simp only [isTest, decide_eq_true_eq]
    omega

/-- C5 witness: a 3-day span (`n = 3 ≤ 365`) starting at day 0 has every
date marked test; the concrete date 1 with max date 2 is test. -/
theorem split_policy_spec_witness : isTest 1 (0 + (3 : ℕ) - 1) = true :=
  split_policy_spec.2.2 0 3 (by decide) 1 (by decide)

theorem rollApply_getElem? (w : ℕ) (f : List ℚ → ℚ) (s : List Val) (i : ℕ)
    (hi : i < s.length) :
    (rollApply w f s)[i]? =
      some (if w ≤ i + 1 then
              if (window w s i).all Option.isSome then
                some (f ((window w s i).map (fun o => o.getD 0)))
              else none
            else none) := by
  simp only [rollApply, List.getElem?_map, List.getElem?_range, hi, if_pos,
    Option.map_some]
  rfl

/-- C7: each lag column equals the target value `k` days prior where that
row exists and is null at the first `k` rows; on an all-non-null series the
lag is null exactly at the first `k` rows; each trailing rolling aggregate
(window inclusive of the current day) is null whenever its window is short
of the required number of observations (fewer than `w` rows, or a null in
the window), and is the aggregate of the window values otherwise. -/
theorem feature_null_policy (s : List Val) (i : ℕ) (hi : i < s.length) :
    ((add_lags_rolls s).lag1[i]? = some (if 1 ≤ i then colAt s (i - 1) else none) ∧
     (add_lags_rolls s).lag7[i]? = some (if 7 ≤ i then colAt s (i - 7) else none) ∧
     (add_lags_rolls s).lag14[i]? = some (if 14 ≤ i then colAt s (i - 14) else none)) ∧
    (s.all Option.isSome = true →
      (((add_lags_rolls s).lag1[i]? = some none ↔ i < 1) ∧
       ((add_lags_rolls s).lag7[i]? = some none ↔ i < 7) ∧
       ((add_lags_rolls s).lag14[i]? = some none ↔ i < 14))) ∧
    ((¬ (7 ≤ i + 1 ∧ (window 7 s i).all Option.isSome = true) →
        (add_lags_rolls s).rollMean7[i]? = some none ∧
        (add_lags_rolls s).rollVarS7[i]? = some none) ∧
     (¬ (30 ≤ i + 1 ∧ (window 30 s i).all Option.isSome = true) →
        (add_lags_rolls s).rollMean30[i]? = some none) ∧
     (7 ≤ i + 1 → (window 7 s i).all Option.isSome = true →
        (add_lags_rolls s).rollMean7[i]? =
          some (some (meanQ ((window 7 s i).map (fun o => o.getD 0)))) ∧
        (add_lags_rolls s).rollVarS7[i]? =
          some (some (varQ ((window 7 s i).map (fun o => o.getD 0))))) ∧
     (30 ≤ i + 1 → (window 30 s i).all Option.isSome = true →
        (add_lags_rolls s).rollMean30[i]? =
          some (some (meanQ ((window 30 s i).map (fun o => o.getD 0)))))) := by
  have hlag : ∀ k : ℕ, (shift k s)[i]? = some (if k ≤ i then colAt s (i - k) else none) := by
    intro k; rw [shift_getElem? k s i, if_pos hi]
  have hlagNull : s.all Option.isSome = true →
      ∀ k : ℕ, ((shift k s)[i]? = some none ↔ i < k) := by
    intro hall k
    rw [hlag k]
    by_cases hk : k ≤ i
    · obtain ⟨v, hv⟩ := colAt_isSome_of_all s hall (i - k) (by omega)
      simp [hk, hv]
    · simp [hk]
      omega
  have hroll : ∀ (w : ℕ) (f : List ℚ → ℚ),
      (¬ (w ≤ i + 1 ∧ (window w s i).all Option.isSome = true) →
        (rollApply w f s)[i]? = some none) ∧
      (w ≤ i + 1 → (window w s i).all Option.isSome = true →
        (rollApply w f s)[i]? = some (some (f ((window w s i).map (fun o => o.getD 0))))) := by
    intro w f
    rw [rollApply_getElem? w f s i hi]
    constructor
    · intro hne
      by_cases hw : w ≤ i + 1
      · have : ¬ (window w s i).all Option.isSome = true := fun hc => hne ⟨hw, hc⟩
        simp [hw, this]
      · simp [hw]
    · intro hw hall
      simp [hw, hall]
  exact ⟨⟨hlag 1, hlag 7, hlag 14⟩,
    fun hall => ⟨hlagNull hall 1, hlagNull hall 7, hlagNull hall 14⟩,
    ⟨fun hne => ⟨(hroll 7 meanQ).1 hne, (hroll 7 varQ).1 hne⟩,
     fun hne => (hroll 30 meanQ).1 hne,
     fun hw hall => ⟨(hroll 7 meanQ).2 hw hall, (hroll 7 varQ).2 hw hall⟩,
     fun hw hall => (hroll 30 meanQ).2 hw hall⟩⟩

/-- C7 witness: on the series `1..8` at row 7: `lag7` is `s[0] = 1`,
`lag14` is null (7 < 14), the 7-day rolling mean is `5` (mean of `2..8`),
and the 30-day rolling mean is null (window not full). -/
theorem feature_null_policy_witness :
    (add_lags_rolls [some 1, some 2, some 3, some 4, some 5, some 6, some 7, some 8]).lag7[7]? = some (some 1) ∧
    (add_lags_rolls [some 1, some 2, some 3, some 4, some 5, some 6, some 7, some 8]).lag14[7]? = some none ∧
    (add_lags_rolls [some 1, some 2, some 3, some 4, some 5, some 6, some 7, some 8]).rollMean7[7]? = some (some 5) ∧
    (add_lags_rolls [some 1, some 2, some 3, some 4, some 5, some 6, some 7, some 8]).rollMean30[7]? = some none := by
  have h := feature_null_policy
    [some 1, some 2, some 3, some 4, some 5, some 6, some 7, some 8] 7 (by decide)
  refine ⟨?_, ?_, ?_, ?_⟩
  · have h7 := h.1.2.1
    rw [h7]; decide
  · exact (h.2.1 (by decide)).2.2.mpr (by decide)
  · have hm := h.2.2.2.2.1 (by decide) (by decide)
    rw [hm.1]; norm_num [window, colAt, meanQ, List.range_succ]
  · exact h.2.2.2.1 (by decide)

theorem length_agree (s t : List Val) (i : ℕ) (h : s[i]? = t[i]?) :
    i < s.length ↔ i < t.length := by
  rw [← Nat.not_le, ← Nat.not_le, ← List.getElem?_eq_none_iff, ← List.getElem?_eq_none_iff, h]

theorem colAt_agree (s t : List Val) (i : ℕ) (h : ∀ j, j ≤ i → s[j]? = t[j]?)
    (j : ℕ) (hj : j ≤ i) : colAt s j = colAt t j := by
  rw [colAt_eq_join, colAt_eq_join, h j hj]

theorem shift_agree (s t : List Val) (k i : ℕ) (h : ∀ j, j ≤ i → s[j]? = t[j]?) :
    (shift k s)[i]? = (shift k t)[i]? := by
  rw [shift_getElem?, shift_getElem?]
  by_cases hl : i < s.length
  · have hl' : i < t.length := (length_agree s t i (h i (Nat.le_refl i))).mp hl
    rw [if_pos hl, if_pos hl']
    by_cases hk : k ≤ i
    · rw [if_pos hk, if_pos hk, colAt_agree s t i h (i - k) (by omega)]
    · rw [if_neg hk, if_neg hk]
  · have hl' : ¬ i < t.length := fun hc => hl ((length_agree s t i (h i (Nat.le_refl i))).mpr hc)
    rw [if_neg hl, if_neg hl']

theorem window_agree (s t : List Val) (w i : ℕ) (hw : w ≤ i + 1)
    (h : ∀ j, j ≤ i → s[j]? = t[j]?) : window w s i = window w t i := by
  unfold window
  refine List.map_congr_left ?_
  intro a ha
  rw [List.mem_range] at ha
  exact colAt_agree s t i h (i + 1 - w + a) (by omega)

theorem rollApply_agree (w : ℕ) (f : List ℚ → ℚ) (s t : List Val) (i : ℕ)
    (h : ∀ j, j ≤ i → s[j]? = t[j]?) :
    (rollApply w f s)[i]? = (rollApply w f t)[i]? := by
  by_cases hl : i < s.length
  · have hl' : i < t.length := (length_agree s t i (h i (Nat.le_refl i))).mp hl
    rw [rollApply_getElem? w f s i hl, rollApply_getElem? w f t i hl']
    by_cases hw : w ≤ i + 1
    · rw [window_agree s t w i hw h]
    · rw [if_neg hw, if_neg hw]
  · have hl' : ¬ i < t.length := fun hc => hl ((length_agree s t i (h i (Nat.le_refl i))).mpr hc)
    have e1 : (rollApply w f s)[i]? = none := by
      rw [List.getElem?_eq_none_iff]
      simpa [rollApply] using Nat.le_of_not_lt hl
    have e2 : (rollApply w f t)[i]? = none := by
      rw [List.getElem?_eq_none_iff]
      simpa [rollApply] using Nat.le_of_not_lt hl'
    rw [e1, e2]

/-- C1 (no-lookahead): if two target series agree at every row `j ≤ i`, then
every lag and rolling column produced by `add_lags_rolls` agrees at row `i`;
the features at a row are a function of values at or before that row only. -/
theorem no_lookahead (s t : List Val) (i : ℕ)
    (h : ∀ j, j ≤ i → s[j]? = t[j]?) :
    (add_lags_rolls s).lag1[i]? = (add_lags_rolls t).lag1[i]? ∧
    (add_lags_rolls s).lag7[i]? = (add_lags_rolls t).lag7[i]? ∧
    (add_lags_rolls s).lag14[i]? = (add_lags_rolls t).lag14[i]? ∧
    (add_lags_rolls s).rollMean7[i]? = (add_lags_rolls t).rollMean7[i]? ∧
    (add_lags_rolls s).rollVarS7[i]? = (add_lags_rolls t).rollVarS7[i]? ∧
    (add_lags_rolls s).rollMean30[i]? = (add_lags_rolls t).rollMean30[i]? :=
  ⟨shift_agree s t 1 i h, shift_agree s t 7 i h, shift_agree s t 14 i h,
   rollApply_agree 7 meanQ s t i h, rollApply_agree 7 varQ s t i h,
   rollApply_agree 30 meanQ s t i h⟩

/-- C1 witness: mutating the value after row 1 (`3 ↦ 99`) leaves every
feature column unchanged at row 1. -/
theorem no_lookahead_witness :
    (add_lags_rolls [some 1, some 2, some 3]).lag1[1]? =
      (add_lags_rolls [some 1, some 2, some 99]).lag1[1]? ∧
    (add_lags_rolls [some 1, some 2, some 3]).lag7[1]? =
      (add_lags_rolls [some 1, some 2, some 99]).lag7[1]? ∧
    (add_lags_rolls [some 1, some 2, some 3]).lag14[1]? =
      (add_lags_rolls [some 1, some 2, some 99]).lag14[1]? ∧
    (add_lags_rolls [some 1, some 2, some 3]).rollMean7[1]? =
      (add_lags_rolls [some 1, some 2, some 99]).rollMean7[1]? ∧
    (add_lags_rolls [some 1, some 2, some 3]).rollVarS7[1]? =
      (add_lags_rolls [some 1, some 2, some 99]).rollVarS7[1]? ∧
    (add_lags_rolls [some 1, some 2, some 3]).rollMean30[1]? =
      (add_lags_rolls [some 1, some 2, some 99]).rollMean30[1]? :=
  no_lookahead [some 1, some 2, some 3] [some 1, some 2, some 99] 1
    (by intro j hj; interval_cases j <;> rfl)

/-- C4 counterexample: on the empty observation series the normalizer does
not return an ok/empty result — `pd.date_range(NaT, NaT)` raises. -/
theorem normalize_empty_not_ok :
    (normalizeCol ([] : List (ℤ × Val))).isOk = false := rfl

/-- C4 amended: applied to an empty observation series, the normalization
step raises (the daily `date_range` construction fails on the undefined
min/max date) instead of returning an empty series. -/
theorem normalize_empty_raises :
    normalizeCol ([] : List (ℤ × Val)) = .error "Neither start nor end can be NaT" := rfl

/-- C2 counterexample: observations at days 0 and 5 (values 10 and 20) leave
a run of 4 consecutive missing days; the claim says all four stay null, but
`interpolate(limit=3)` fills the first three of them (12, 14, 16) and leaves
only day 4 null. -/
theorem gap_cap_counterexample :
    normalizeCol [((0 : ℤ), (some 10 : Val)), (5, some 20)] =
      .ok [(0, some 10), (1, some 12), (2, some 14), (3, some 16), (4, none), (5, some 20)] := by
  have h1 : interpolateLimit 3 [some 10, none, none, none, none, some 20] =
      [some 10, some 12, some 14, some 16, none, some 20] := by
    norm_num [interpolateLimit, List.range_succ, colAt, prevValid, nextValid, nextValidAux, interpQ]
  have h2 : normalizeCol [((0 : ℤ), (some 10 : Val)), (5, some 20)] =
      .ok ((dateIndex 0 6).zip (interpolateLimit 3 [some 10, none, none, none, none, some 20])) := rfl
  rw [h2, h1]
  rfl

theorem prevValid_eq (s : List Val) (a : ℕ) (ha : (colAt s a).isSome = true) :
    ∀ i, a ≤ i → (∀ j, a < j → j ≤ i → colAt s j = none) → prevValid s i = some a := by
  intro i
  induction i with
  | zero =>
    intro hle _
    have haz : a = 0 := by omega
    subst haz
    simp [prevValid, ha]
  | succ n ih =>
    intro hle hnone
    by_cases hc : a = n + 1
    · subst hc; simp [prevValid, ha]
    · have hn1 : colAt s (n + 1) = none := hnone (n + 1) (by omega) (Nat.le_refl _)
      have hstep : prevValid s (n + 1) = prevValid s n := by simp [prevValid, hn1]
      rw [hstep]
      exact ih (by omega) (fun j h1 h2 => hnone j h1 (by omega))

theorem nextValidAux_eq (s : List Val) (b : ℕ) (hb : (colAt s b).isSome = true) :
    ∀ fuel i, i ≤ b → b < i + fuel → (∀ j, i ≤ j → j < b → colAt s j = none) →
      nextValidAux s fuel i = some b := by
  intro fuel
  induction fuel with
  | zero => intro i h1 h2 _; omega
  | succ n ih =>
    intro i h1 h2 hnone
    by_cases hc : i = b
    · subst hc; simp [nextValidAux, hb]
    · have hi : colAt s i = none := hnone i (Nat.le_refl _) (by omega)
      have hstep : nextValidAux s (n + 1) i = nextValidAux s n (i + 1) := by
        simp [nextValidAux, hi]
      rw [hstep]
      exact ih (i + 1) (by omega) (by omega) (fun j hj1 hj2 => hnone j (by omega) hj2)

theorem nextValid_eq (s : List Val) (b : ℕ) (hb : (colAt s b).isSome = true)
    (hblen : b < s.length) (i : ℕ) (hib : i ≤ b)
    (hnone : ∀ j, i ≤ j → j < b → colAt s j = none) :
    nextValid s i = some b :=
  nextValidAux_eq s b hb (s.length - i) i hib (by omega) hnone

theorem interpolateLimit_length (lim : ℕ) (s : List Val) :
    (interpolateLimit lim s).length = s.length := by
  simp [interpolateLimit]

theorem interpolateLimit_preserves (lim : ℕ) (s : List Val) (i : ℕ) (v : ℚ)
    (hi : i < s.length) (hv : colAt s i = some v) :
    (interpolateLimit lim s)[i]? = some (some v) := by
  simp [interpolateLimit, List.getElem?_map, List.getElem?_range, hi, hv]

/-- C2 amended: inside a run of consecutive missing cells flanked by the
valid cells `(a, va)` and `(b, vb)`, `interpolate(limit=3)` fills exactly
the positions at distance at most 3 from the left valid neighbor with the
linear interpolation between the neighbors, and leaves the rest of the run
null — so runs of at most 3 missing days are fully filled, and in a longer
run only the first 3 days are filled. -/
theorem gap_cap_amended (s : List Val) (a b i : ℕ) (va vb : ℚ)
    (ha : colAt s a = some va) (hb : colAt s b = some vb) (hblen : b < s.length)
    (hrun : ∀ j, a < j → j < b → colAt s j = none)
    (hai : a < i) (hib : i < b) :
    (interpolateLimit 3 s)[i]? =
      some (if i - a ≤ 3 then some (interpQ a va b vb i) else none) := by
  have hi : i < s.length := by omega
  have hnone : colAt s i = none := hrun i hai hib
  have hprev : prevValid s i = some a :=
    prevValid_eq s a (by simp [ha]) i (by omega)
      (fun j h1 h2 => hrun j h1 (by omega))
  have hnext : nextValid s i = some b :=
    nextValid_eq s b (by simp [hb]) hblen i (by omega)
      (fun j h1 h2 => hrun j (by omega) h2)
  simp [interpolateLimit, List.getElem?_map, List.getElem?_range, hi, hnone,
    hprev, hnext, ha, hb]

/-- C2 amended witness: `[0, NaN, NaN, NaN, NaN, 10]` — position 1 (offset 1
from the left neighbor) is filled with the interpolated value 2, position 4
(offset 4 > 3) stays null. -/
theorem gap_cap_amended_witness :
    (interpolateLimit 3 [some 0, none, none, none, none, some 10])[1]? = some (some 2) ∧
    (interpolateLimit 3 [some 0, none, none, none, none, some 10])[4]? = some none := by
  constructor
  · have h := gap_cap_amended [some 0, none, none, none, none, some 10] 0 5 1 0 10
      rfl rfl (by decide) (by intro j h1 h2; interval_cases j <;> rfl) (by decide) (by decide)
    rw [h]
    norm_num [interpQ]
  · have h := gap_cap_amended [some 0, none, none, none, none, some 10] 0 5 4 0 10
      rfl rfl (by decide) (by intro j h1 h2; interval_cases j <;> rfl) (by decide) (by decide)
    rw [h]
    norm_num

theorem foldl_min_bound (l : List (ℤ × Val)) :
    ∀ init : ℤ, l.foldl (fun m p => min m p.1) init ≤ init ∧
      ∀ p ∈ l, l.foldl (fun m p => min m p.1) init ≤ p.1 := by
  induction l with
  | nil => intro init; exact ⟨le_refl _, by simp⟩
  | cons q l ih =>
    intro init
    have h := ih (min init q.1)
    refine ⟨?_, ?_⟩
    · simp only [List.foldl_cons]
      exact h.1.trans (min_le_left _ _)
    · intro p hp
      rcases List.mem_cons.mp hp with rfl | hp'
      · simp only [List.foldl_cons]
        exact h.1.trans (min_le_right _ _)
      · simp only [List.foldl_cons]
        exact h.2 p hp'

theorem foldl_max_bound (l : List (ℤ × Val)) :
    ∀ init : ℤ, init ≤ l.foldl (fun m p => max m p.1) init ∧
      ∀ p ∈ l, p.1 ≤ l.foldl (fun m p => max m p.1) init := by
  induction l with
  | nil => intro init; exact ⟨le_refl _, by simp⟩
  | cons q l ih =>
    intro init
    have h := ih (max init q.1)
    refine ⟨?_, ?_⟩
    · simp only [List.foldl_cons]
      exact (le_max_left _ _).trans h.1
    · intro p hp
      rcases List.mem_cons.mp hp with rfl | hp'
      · simp only [List.foldl_cons]
        exact (le_max_right _ _).trans h.1
      · simp only [List.foldl_cons]
        exact h.2 p hp'

theorem lookup_of_mem_of_nodup (l : List (ℤ × Val)) (d : ℤ) (x : Val)
    (hnd : (l.map Prod.fst).Nodup) (hmem : (d, x) ∈ l) :
    l.lookup d = some x := by
  induction l with
  | nil => cases hmem
  | cons q l ih =>
    rcases List.mem_cons.mp hmem with heq | hmem'
    · subst heq
      simp [List.lookup]
    · have hnd' : (l.map Prod.fst).Nodup := by
        rw [List.map_cons, List.nodup_cons] at hnd
        exact hnd.2
      have hq : q.1 ∉ l.map Prod.fst := by
        rw [List.map_cons, List.nodup_cons] at hnd
        exact hnd.1
      have hd : (d == q.1) = false := by
        rw [beq_eq_false_iff_ne]
        intro hdq
        exact hq (hdq ▸ List.mem_map.mpr ⟨(d, x), hmem', rfl⟩)
      simp [List.lookup, hd]
      exact ih hnd' hmem'

theorem lookup_zip (g : List ℤ) (xs : List Val) (d : ℤ) (t : ℕ)
    (hnd : g.Nodup) (hg : g[t]? = some d) :
    (g.zip xs).lookup d = xs[t]? := by
  induction g generalizing xs t with
  | nil => simp at hg
  | cons a g ih =>
    cases xs with
    | nil =>
      have : t < (a :: g).length := by
        by_contra hc
        rw [List.getElem?_eq_none_iff.mpr (Nat.le_of_not_lt hc)] at hg
        cases hg
      simp
    | cons x xs =>
      cases t with
      | zero =>
        simp only [List.getElem?_cons_zero, Option.some_inj] at hg
        subst hg
        simp [List.lookup]
      | succ n =>
        have hg' : g[n]? = some d := by simpa using hg
        have hdmem : d ∈ g := List.getElem?_mem hg'
        have hna := (List.nodup_cons.mp hnd).1
        have hd : (d == a) = false := by
          rw [beq_eq_false_iff_ne]
          intro hda
          exact hna (hda ▸ hdmem)
        simp only [List.zip_cons_cons, List.lookup, hd, List.getElem?_cons_succ]
        exact ih xs n (List.nodup_cons.mp hnd).2 hg'

theorem dateIndex_getElem? (lo : ℤ) (n t : ℕ) :
    (dateIndex lo n)[t]? = if t < n then some (lo + (t : ℤ)) else none := by
  by_cases h : t < n <;>
    simp [dateIndex, List.getElem?_map, List.getElem?_range, h, Nat.le_of_not_lt]

theorem dateIndex_nodup (lo : ℤ) (n : ℕ) : (dateIndex lo n).Nodup := by
  refine List.Nodup.map ?_ (List.nodup_range n)
  intro x y hxy
  exact Nat.cast_injective (add_left_cancel hxy)

/-- C9: the normalizer never alters an observed value: every date present in
the input with a non-null value appears in the normalized output with
exactly that value (reindexing and interpolation only add or fill missing
cells). -/
theorem normalize_frame (obs : List (ℤ × Val)) (d : ℤ) (v : ℚ)
    (hnd : (obs.map Prod.fst).Nodup) (hmem : (d, some v) ∈ obs) :
    ∃ out, normalizeCol obs = .ok out ∧ out.lookup d = some (some v) := by
  rcases obs with _ | ⟨o, rest⟩
  · cases hmem
  · have hminb := foldl_min_bound rest o.1
    have hmaxb := foldl_max_bound rest o.1
    have hlod : rest.foldl (fun m p => min m p.1) o.1 ≤ d := by
      rcases List.mem_cons.mp hmem with heq | hmem'
      · have := congrArg Prod.fst heq
        simp at this
        rw [this]
        exact hminb.1
      · exact hminb.2 _ hmem'
    have hdhi : d ≤ rest.foldl (fun m p => max m p.1) o.1 := by
      rcases List.mem_cons.mp hmem with heq | hmem'
      · have := congrArg Prod.fst heq
        simp at this
        rw [this]
        exact hmaxb.1
      · exact hmaxb.2 _ hmem'
    set lo := rest.foldl (fun m p => min m p.1) o.1 with hlo
    set hi := rest.foldl (fun m p => max m p.1) o.1 with hhi
    set n := (hi - lo + 1).toNat with hn
    set t := (d - lo).toNat with ht
    have htn : t < n := by omega
    have hgrid : (dateIndex lo n)[t]? = some d := by
      rw [dateIndex_getElem?, if_pos htn]
      congr 1
      omega
    have hlookup : (o :: rest).lookup d = some (some v) :=
      lookup_of_mem_of_nodup _ _ _ hnd hmem
    set vals := (dateIndex lo n).map (fun dd => ((o :: rest).lookup dd).join) with hvals
    have hvals_len : vals.length = n := by simp [hvals, dateIndex]
    have hvalst : colAt vals t = some v := by
      rw [colAt_eq_join]
      have hv : vals[t]? = some (((o :: rest).lookup d).join) := by
        rw [hvals, List.getElem?_map, hgrid]
        rfl
      rw [hv, hlookup]
      rfl
    have hinterp : (interpolateLimit 3 vals)[t]? = some (some v) :=
      interpolateLimit_preserves 3 vals t v (by rw [hvals_len]; exact htn) hvalst
    refine ⟨(dateIndex lo n).zip (interpolateLimit 3 vals), rfl, ?_⟩
    rw [lookup_zip (dateIndex lo n) (interpolateLimit 3 vals) d t
      (dateIndex_nodup lo n) hgrid]
    exact hinterp

/-- C9 witness: observed values 7 at day 2 and 9 at day 4 (day 3 null)
survive normalization unchanged: the output still maps day 4 to 9. -/
theorem normalize_frame_witness :
    ∃ out, normalizeCol [((2 : ℤ), (some 7 : Val)), (4, some 9), (3, none)] = .ok out ∧
      out.lookup 4 = some (some 9) :=
  normalize_frame [((2 : ℤ), (some 7 : Val)), (4, some 9), (3, none)] 4 9
    (by decide) (by decide)

end WeatherInsights
